import Mathlib

/-!
Verification of the per-note synchronization and persistence engine of the
macStickyNotes note editor.

The development shallowly embeds the editor component (`Editor.svelte`, the
file containing `save_contents`, `apply_external_contents`,
`serializeContents`, `isMeaningfulSerializedContents`, `parseDelta`,
`persistContents`, `growWindowToFitEditorContent` and the `text-change`
handler) together with the `StickyNote.svelte` listeners (`zoom`,
`external_note_update`, `closeNote`).

Modelling conventions:
* JavaScript strings are modelled as `List Char` (`Str`).
* `JSON.parse` / `JSON.stringify` are modelled by an executable JSON printer
  (`renderJson`) and parser (`parseVal`) over a JSON value type whose numbers
  are integers; the serialized documents the editor produces contain only
  integer numerics, so the integer fragment is faithful for them.
* JavaScript numbers appearing outside documents (the `zoom` payload) are
  modelled by `JSNum`: an exact rational together with the non-finite values,
  which captures truthiness and `Number.isFinite` exactly; all numeric
  comparisons made by the code on these values involve exactly representable
  decimals.
* Timers are modelled by a deadline slot (`saveTimeout`) in a note state, and
  the passage of time by an explicit `tick` transition that fires a due timer.
* Asynchronous gateway commands are modelled by appending the invocation to a
  log carried in the state.
-/

/-- JavaScript strings, modelled as lists of unicode scalar values. -/
abbrev Str := List Char

/-- Whitespace recognised by JavaScript `String.prototype.trim`
(the ASCII fragment). -/
def isWsChar (c : Char) : Bool :=
  c = ' ' || c = '\t' || c = '\n' || c = '\r' || c = Char.ofNat 11 || c = Char.ofNat 12

/-- Model of `s.trim()`: drop leading and trailing whitespace. -/
def jsTrim (s : Str) : Str :=
  ((s.dropWhile isWsChar).reverse.dropWhile isWsChar).reverse

/-- Model of `s.replace(/\n/g, "")`. -/
def removeNewlines (s : Str) : Str :=
  s.filter (fun c => c ≠ '\n')

theorem jsTrim_eq_nil_iff (s : Str) :
    jsTrim s = [] ↔ ∀ c ∈ s, isWsChar c = true := by
  unfold jsTrim
  rw [List.reverse_eq_nil_iff, List.dropWhile_eq_nil_iff]
  constructor
  · intro h c hc
    rw [← List.takeWhile_append_dropWhile (p := isWsChar) (l := s)] at hc
    rcases List.mem_append.mp hc with h1 | h1
    · exact List.mem_takeWhile_imp h1
    · exact h c (List.mem_reverse.mpr h1)
  · intro h c hc
    exact h c (List.dropWhile_sublist (p := isWsChar) (l := s) |>.subset
      (List.mem_reverse.mp hc))

/-- Opening curly brace character (written via its code point). -/
def lbrace : Char := Char.ofNat 123

/-- Closing curly brace character (written via its code point). -/
def rbrace : Char := Char.ofNat 125

/-- JSON values, as produced by `JSON.parse` and consumed by
`JSON.stringify`; numbers are restricted to the integer fragment, which
covers every numeric the editor's serialized documents contain. -/
inductive Json where
  | null : Json
  | bool (b : Bool) : Json
  | num (n : Int) : Json
  | str (s : Str) : Json
  | arr (elems : List Json) : Json
  | obj (fields : List (Str × Json)) : Json

/-- JavaScript truthiness of a JSON value. -/
def Json.truthy : Json → Bool
  | .null => false
  | .bool b => b
  | .num n => n ≠ 0
  | .str s => s ≠ []
  | .arr _ => true
  | .obj _ => true

/-- Property lookup `j.k`: `some v` when `j` is an object with field `k`,
`none` (JavaScript `undefined`) otherwise. -/
def Json.getField : Json → Str → Option Json
  | .obj fields, k => fields.lookup k
  | _, _ => none

/-- Whether `typeof v === "object"` and `v !== null`, the test
`serializeContents` applies to `op.insert` to detect an embed. -/
def Json.isObjectNonNull : Json → Bool
  | .arr _ => true
  | .obj _ => true
  | _ => false

/-- The decimal digit character for `m < 10`. -/
def digitChar (m : ℕ) : Char := Char.ofNat (48 + m)

/-- Decimal rendering of a natural number (most significant digit first). -/
def renderNat (n : ℕ) : Str :=
  if h : n < 10 then [digitChar n]
  else renderNat (n / 10) ++ [digitChar (n % 10)]
decreasing_by exact Nat.div_lt_self (by omega) (by omega)

/-- Decimal rendering of an integer, as `JSON.stringify` prints it. -/
def renderInt (n : Int) : Str :=
  if n < 0 then '-' :: renderNat (-n).toNat else renderNat n.toNat

/-- Lower-case hexadecimal digit character for `m < 16`. -/
def hexDigitChar (m : ℕ) : Char :=
  if m < 10 then Char.ofNat (48 + m) else Char.ofNat (87 + m)

/-- The escape sequence `JSON.stringify` emits for one character of a
string: named escapes for `"`, `\` and common controls, `\u00xx` for the
remaining control characters, and the character itself otherwise. -/
def escapeChar (c : Char) : Str :=
  if c = '"' then ['\\', '"']
  else if c = '\\' then ['\\', '\\']
  else if c = '\n' then ['\\', 'n']
  else if c = '\t' then ['\\', 't']
  else if c = '\r' then ['\\', 'r']
  else if c = Char.ofNat 8 then ['\\', 'b']
  else if c = Char.ofNat 12 then ['\\', 'f']
  else if c.toNat < 32 then
    ['\\', 'u', '0', '0', hexDigitChar (c.toNat / 16), hexDigitChar (c.toNat % 16)]
  else [c]

/-- The keyword characters of the JSON literal `null`. -/
def litNull : Str := ['n', 'u', 'l', 'l']

/-- The keyword characters of the JSON literal `true`. -/
def litTrue : Str := ['t', 'r', 'u', 'e']

/-- The keyword characters of the JSON literal `false`. -/
def litFalse : Str := ['f', 'a', 'l', 's', 'e']

/-- JSON rendering of a string literal, quotes included. -/
def renderStr (s : Str) : Str :=
  '"' :: s.flatMap escapeChar ++ ['"']

mutual

/-- Model of `JSON.stringify` (no spacing, fields in order). -/
def renderJson : Json → Str
  | .null => litNull
  | .bool true => litTrue
  | .bool false => litFalse
  | .num n => renderInt n
  | .str s => renderStr s
  | .arr elems => '[' :: renderArr elems ++ [']']
  | .obj fields => lbrace :: renderObj fields ++ [rbrace]

/-- Comma-separated rendering of array elements. -/
def renderArr : List Json → Str
  | [] => []
  | [x] => renderJson x
  | x :: y :: xs => renderJson x ++ ',' :: renderArr (y :: xs)

/-- Comma-separated rendering of object fields. -/
def renderObj : List (Str × Json) → Str
  | [] => []
  | [kv] => renderStr kv.1 ++ ':' :: renderJson kv.2
  | kv :: kv2 :: kvs => renderStr kv.1 ++ ':' :: renderJson kv.2 ++ ',' :: renderObj (kv2 :: kvs)

end

/-- Whitespace accepted between JSON tokens by `JSON.parse`. -/
def jsonWsChar (c : Char) : Bool :=
  c = ' ' || c = '\t' || c = '\n' || c = '\r'

/-- Skip inter-token whitespace. -/
def skipWs (l : Str) : Str := l.dropWhile jsonWsChar

/-- Is `c` a decimal digit? -/
def isDigitChar (c : Char) : Bool :=
  48 ≤ c.toNat && c.toNat ≤ 57

/-- Strip the expected literal characters `pat` from the front of `l`. -/
def dropPre : Str → Str → Option Str
  | [], l => some l
  | _ :: _, [] => none
  | p :: ps, c :: cs => if c = p then dropPre ps cs else none

/-- Numeric value of a hexadecimal digit character. -/
def hexVal (c : Char) : Option ℕ :=
  if 48 ≤ c.toNat ∧ c.toNat ≤ 57 then some (c.toNat - 48)
  else if 97 ≤ c.toNat ∧ c.toNat ≤ 102 then some (c.toNat - 87)
  else if 65 ≤ c.toNat ∧ c.toNat ≤ 70 then some (c.toNat - 55)
  else none

/-- Resolve a single-character escape sequence. -/
def unescape (c : Char) : Option Char :=
  if c = '"' then some '"'
  else if c = '\\' then some '\\'
  else if c = '/' then some '/'
  else if c = 'n' then some '\n'
  else if c = 't' then some '\t'
  else if c = 'r' then some '\r'
  else if c = 'b' then some (Char.ofNat 8)
  else if c = 'f' then some (Char.ofNat 12)
  else none

/-- Parse the body of a JSON string literal (after the opening quote),
returning the decoded string and the remaining input. -/
def parseStrBody : Str → Option (Str × Str)
  | [] => none
  | c :: rest =>
    if c = '"' then some ([], rest)
    else if c = '\\' then
      match rest with
      | [] => none
      | e :: rest2 =>
        if e = 'u' then
          match rest2 with
          | a :: b :: c2 :: d :: rest3 =>
            match hexVal a, hexVal b, hexVal c2, hexVal d with
            | some x, some y, some z, some w =>
              (parseStrBody rest3).map
                (fun p => (Char.ofNat (((x * 16 + y) * 16 + z) * 16 + w) :: p.1, p.2))
            | _, _, _, _ => none
          | _ => none
        else
          match unescape e with
          | some ch => (parseStrBody rest2).map (fun p => (ch :: p.1, p.2))
          | none => none
    else (parseStrBody rest).map (fun p => (c :: p.1, p.2))

/-- Greedily read decimal digits, extending the accumulator `acc`. -/
def parseDigits : Str → ℕ → ℕ × Str
  | [], acc => (acc, [])
  | c :: rest, acc =>
    if isDigitChar c then parseDigits rest (acc * 10 + (c.toNat - 48))
    else (acc, c :: rest)

mutual

/-- Model of `JSON.parse` on one value (fuel-indexed recursion): parses a
value and returns it with the unconsumed input, or `none` on malformed
input. -/
def parseVal : ℕ → Str → Option (Json × Str)
  | 0, _ => none
  | fuel + 1, l0 =>
    match skipWs l0 with
    | [] => none
    | c :: rest =>
      if c = 'n' then (dropPre litNull.tail rest).map (fun r => (Json.null, r))
      else if c = 't' then (dropPre litTrue.tail rest).map (fun r => (Json.bool true, r))
      else if c = 'f' then (dropPre litFalse.tail rest).map (fun r => (Json.bool false, r))
      else if c = '"' then (parseStrBody rest).map (fun p => (Json.str p.1, p.2))
      else if c = '[' then
        if (skipWs rest).head? = some ']' then some (Json.arr [], (skipWs rest).tail)
        else (parseArrItems fuel rest).map (fun p => (Json.arr p.1, p.2))
      else if c = lbrace then
        if (skipWs rest).head? = some rbrace then some (Json.obj [], (skipWs rest).tail)
        else (parseObjItems fuel rest).map (fun p => (Json.obj p.1, p.2))
      else if c = '-' then
        match rest with
        | d :: _ =>
          if isDigitChar d then
            some (Json.num (-(((parseDigits rest 0).1 : ℕ) : Int)), (parseDigits rest 0).2)
          else none
        | [] => none
      else if isDigitChar c then
        some (Json.num ((parseDigits (c :: rest) 0).1 : Int), (parseDigits (c :: rest) 0).2)
      else none

/-- Parse the comma-separated items of a non-empty JSON array, up to and
including the closing bracket. -/
def parseArrItems : ℕ → Str → Option (List Json × Str)
  | 0, _ => none
  | fuel + 1, l =>
    match parseVal fuel l with
    | none => none
    | some (x, r) =>
      match skipWs r with
      | [] => none
      | c :: r2 =>
        if c = ',' then (parseArrItems fuel r2).map (fun p => (x :: p.1, p.2))
        else if c = ']' then some ([x], r2)
        else none

/-- Parse the comma-separated fields of a non-empty JSON object, up to and
including the closing brace. -/
def parseObjItems : ℕ → Str → Option (List (Str × Json) × Str)
  | 0, _ => none
  | fuel + 1, l =>
    match skipWs l with
    | [] => none
    | c :: rest =>
      if c = '"' then
        match parseStrBody rest with
        | none => none
        | some (k, r1) =>
          match skipWs r1 with
          | [] => none
          | c2 :: r2 =>
            if c2 = ':' then
              match parseVal fuel r2 with
              | none => none
              | some (v, r3) =>
                match skipWs r3 with
                | [] => none
                | c3 :: r4 =>
                  if c3 = ',' then (parseObjItems fuel r4).map (fun p => ((k, v) :: p.1, p.2))
                  else if c3 = rbrace then some ([(k, v)], r4)
                  else none
            else none
      else none

end

/-- Model of the editor's `parseDelta` (`JSON.parse` wrapped in
`try`/`catch`): parse a complete JSON text, allowing trailing whitespace;
`none` models a thrown exception. -/
def parseDelta (s : Str) : Option Json :=
  match parseVal (s.length + 1) s with
  | some (v, r) => if skipWs r = [] then some v else none
  | none => none

/-- Does the input NOT begin with a decimal digit?  Number parsing stops
exactly at such a boundary. -/
def headNotDigit : Str → Bool
  | [] => true
  | c :: _ => !isDigitChar c

theorem digitChar_toNat (m : ℕ) (h : m < 10) : (digitChar m).toNat = 48 + m := by
  interval_cases m <;> decide

theorem isDigitChar_digitChar (m : ℕ) (h : m < 10) : isDigitChar (digitChar m) = true := by
  interval_cases m <;> decide

theorem renderNat_ne_nil (n : ℕ) : renderNat n ≠ [] := by
  rw [renderNat]
  split <;> simp

theorem renderNat_head_digit (n : ℕ) :
    ∃ c t, renderNat n = c :: t ∧ isDigitChar c = true := by
  induction n using Nat.strong_induction_on with
  | _ n ih =>
    rw [renderNat]
    split
    · exact ⟨digitChar n, [], rfl, isDigitChar_digitChar n (by omega)⟩
    · rename_i h
      obtain ⟨c, t, hct, hc⟩ := ih (n / 10) (Nat.div_lt_self (by omega) (by omega))
      exact ⟨c, t ++ [digitChar (n % 10)], by rw [hct]; simp, hc⟩

theorem parseDigits_renderNat (n : ℕ) :
    ∀ acc rest, parseDigits (renderNat n ++ rest) acc
      = parseDigits rest (acc * 10 ^ (renderNat n).length + n) := by
  induction n using Nat.strong_induction_on with
  | _ n ih =>
    intro acc rest
    rw [renderNat]
    split
    · rename_i h
      simp only [List.cons_append, List.nil_append, parseDigits,
        isDigitChar_digitChar n h, if_pos]
      rw [digitChar_toNat n h]
      simp [pow_succ]
    · rename_i h
      rw [List.append_assoc, List.cons_append, List.nil_append,
        ih (n / 10) (Nat.div_lt_self (by omega) (by omega))]
      simp only [parseDigits, isDigitChar_digitChar (n % 10) (by omega), if_pos]
      rw [digitChar_toNat (n % 10) (by omega)]
      have hlen : (renderNat (n / 10) ++ [digitChar (n % 10)]).length
          = (renderNat (n / 10)).length + 1 := by simp
      rw [hlen]
      congr 1
      rw [pow_succ]
      have : 48 + n % 10 - 48 = n % 10 := by omega
      rw [this]
      have hmod : n % 10 + 10 * (n / 10) = n := Nat.mod_add_div n 10
      ring_nf
      omega

theorem parseDigits_stop (rest : Str) (acc : ℕ) (h : headNotDigit rest = true) :
    parseDigits rest acc = (acc, rest) := by
  cases rest with
  | nil => rfl
  | cons c t =>
    simp only [headNotDigit, Bool.not_eq_true'] at h
    simp [parseDigits, h]

theorem hexVal_hexDigitChar (k : ℕ) (h : k < 16) : hexVal (hexDigitChar k) = some k := by
  interval_cases k <;> decide


theorem parseStrBody_quote (rest : Str) : parseStrBody ('"' :: rest) = some ([], rest) := by
  conv_lhs => rw [parseStrBody.eq_def]
  simp

theorem parseStrBody_plain (c : Char) (rest : Str) (h1 : c ≠ '"') (h2 : c ≠ '\\') :
    parseStrBody (c :: rest) = (parseStrBody rest).map (fun p => (c :: p.1, p.2)) := by
  conv_lhs => rw [parseStrBody.eq_def]
  simp [h1, h2]

theorem parseStrBody_esc (e : Char) (rest : Str) (ch : Char)
    (hne : e ≠ 'u') (he : unescape e = some ch) :
    parseStrBody ('\\' :: e :: rest) = (parseStrBody rest).map (fun p => (ch :: p.1, p.2)) := by
  conv_lhs => rw [parseStrBody.eq_def]
  simp [hne, he]

theorem parseStrBody_escU (a b c2 d : Char) (rest : Str) (x y z w : ℕ)
    (hx : hexVal a = some x) (hy : hexVal b = some y)
    (hz : hexVal c2 = some z) (hw : hexVal d = some w) :
    parseStrBody ('\\' :: 'u' :: a :: b :: c2 :: d :: rest)
      = (parseStrBody rest).map
          (fun p => (Char.ofNat (((x * 16 + y) * 16 + z) * 16 + w) :: p.1, p.2)) := by
  conv_lhs => rw [parseStrBody.eq_def]
  simp [hx, hy, hz, hw]

theorem parseStrBody_flatMap (s : Str) :
    ∀ rest, parseStrBody (s.flatMap escapeChar ++ '"' :: rest) = some (s, rest) := by
  induction s with
  | nil => intro rest; simp [parseStrBody_quote]
  | cons c s ih =>
    intro rest
    simp only [List.flatMap_cons, List.append_assoc]
    by_cases h1 : c = '"'
    · subst h1
      rw [show escapeChar '"' = ['\\', '"'] from rfl]
      rw [List.cons_append, List.cons_append, parseStrBody_esc _ _ '"' (by decide) (by decide)]
      simp only [List.nil_append]
      rw [ih rest]
      rfl
    by_cases h2 : c = '\\'
    · subst h2
      rw [show escapeChar '\\' = ['\\', '\\'] from rfl]
      rw [List.cons_append, List.cons_append, parseStrBody_esc _ _ '\\' (by decide) (by decide)]
      simp only [List.nil_append]
      rw [ih rest]
      rfl
    by_cases h3 : c = '\n'
    · subst h3
      rw [show escapeChar '\n' = ['\\', 'n'] from rfl]
      rw [List.cons_append, List.cons_append, parseStrBody_esc _ _ '\n' (by decide) (by decide)]
      simp only [List.nil_append]
      rw [ih rest]
      rfl
    by_cases h4 : c = '\t'
    · subst h4
      rw [show escapeChar '\t' = ['\\', 't'] from rfl]
      rw [List.cons_append, List.cons_append, parseStrBody_esc _ _ '\t' (by decide) (by decide)]
      simp only [List.nil_append]
      rw [ih rest]
      rfl
    by_cases h5 : c = '\r'
    · subst h5
      rw [show escapeChar '\r' = ['\\', 'r'] from rfl]
      rw [List.cons_append, List.cons_append, parseStrBody_esc _ _ '\r' (by decide) (by decide)]
      simp only [List.nil_append]
      rw [ih rest]
      rfl
    by_cases h6 : c = Char.ofNat 8
    · subst h6
      rw [show escapeChar (Char.ofNat 8) = ['\\', 'b'] from rfl]
      rw [List.cons_append, List.cons_append,
        parseStrBody_esc _ _ (Char.ofNat 8) (by decide) (by decide)]
      simp only [List.nil_append]
      rw [ih rest]
      rfl
    by_cases h7 : c = Char.ofNat 12
    · subst h7
      rw [show escapeChar (Char.ofNat 12) = ['\\', 'f'] from rfl]
      rw [List.cons_append, List.cons_append,
        parseStrBody_esc _ _ (Char.ofNat 12) (by decide) (by decide)]
      simp only [List.nil_append]
      rw [ih rest]
      rfl
    by_cases h8 : c.toNat < 32
    · have hesc : escapeChar c
          = ['\\', 'u', '0', '0', hexDigitChar (c.toNat / 16), hexDigitChar (c.toNat % 16)] := by
        unfold escapeChar
        rw [if_neg h1, if_neg h2, if_neg h3, if_neg h4, if_neg h5, if_neg h6, if_neg h7,
          if_pos h8]
      rw [hesc]
      rw [List.cons_append, List.cons_append, List.cons_append, List.cons_append,
        List.cons_append, List.cons_append,
        parseStrBody_escU _ _ _ _ _ 0 0 (c.toNat / 16) (c.toNat % 16)
          (by decide) (by decide)
          (hexVal_hexDigitChar _ (by omega)) (hexVal_hexDigitChar _ (by omega))]
      simp only [List.nil_append]
      rw [ih rest]
      have hcv : ((0 * 16 + 0) * 16 + c.toNat / 16) * 16 + c.toNat % 16 = c.toNat := by omega
      simp [hcv]
      have h9 : c.toNat / 16 * 16 + c.toNat % 16 = c.toNat := by omega
      rw [h9, Char.ofNat_toNat]
    · have hesc : escapeChar c = [c] := by
        unfold escapeChar
        rw [if_neg h1, if_neg h2, if_neg h3, if_neg h4, if_neg h5, if_neg h6, if_neg h7,
          if_neg h8]
      rw [hesc]
      rw [List.cons_append, parseStrBody_plain c _ h1 h2]
      simp only [List.nil_append]
      rw [ih rest]
      rfl

theorem skipWs_cons_neg (c : Char) (l : Str) (h : jsonWsChar c = false) :
    skipWs (c :: l) = c :: l := by
  simp [skipWs, List.dropWhile_cons, h]

theorem renderJson_ne_nil (j : Json) : renderJson j ≠ [] := by
  cases j with
  | null => simp [renderJson, litNull]
  | bool b => cases b <;> simp [renderJson, litTrue, litFalse]
  | num n =>
    simp only [renderJson, renderInt]
    split
    · simp
    · exact renderNat_ne_nil _
  | str s => simp [renderJson, renderStr]
  | arr elems => simp [renderJson]
  | obj fields => simp [renderJson]

theorem renderJson_length_pos (j : Json) : 1 ≤ (renderJson j).length := by
  cases h : renderJson j with
  | nil => exact absurd h (renderJson_ne_nil j)
  | cons c t => simp

theorem digit_facts (c : Char) (h : isDigitChar c = true) :
    c ≠ 'n' ∧ c ≠ 't' ∧ c ≠ 'f' ∧ c ≠ '"' ∧ c ≠ '[' ∧ c ≠ lbrace ∧ c ≠ '-' ∧
      c ≠ ']' ∧ c ≠ rbrace ∧ jsonWsChar c = false := by
  refine ⟨?_, ?_, ?_, ?_, ?_, ?_, ?_, ?_, ?_, ?_⟩
  case _ => rintro rfl; revert h; decide
  case _ => rintro rfl; revert h; decide
  case _ => rintro rfl; revert h; decide
  case _ => rintro rfl; revert h; decide
  case _ => rintro rfl; revert h; decide
  case _ => rintro rfl; revert h; decide
  case _ => rintro rfl; revert h; decide
  case _ => rintro rfl; revert h; decide
  case _ => rintro rfl; revert h; decide
  case _ =>
    cases hw : jsonWsChar c
    · rfl
    · exfalso
      simp only [jsonWsChar, Bool.or_eq_true, decide_eq_true_eq] at hw
      rcases hw with (((rfl | rfl) | rfl) | rfl) <;> revert h <;> decide

theorem renderJson_head (j : Json) :
    ∃ c t, renderJson j = c :: t ∧ jsonWsChar c = false ∧ c ≠ ']' ∧ c ≠ rbrace := by
  cases j with
  | null => exact ⟨'n', _, rfl, by decide, by decide, by decide⟩
  | bool b => cases b
               <;> exact ⟨_, _, rfl, by decide, by decide, by decide⟩
  | num n =>
    simp only [renderJson, renderInt]
    split
    · exact ⟨'-', _, rfl, by decide, by decide, by decide⟩
    · obtain ⟨c, t, hct, hc⟩ := renderNat_head_digit n.toNat
      obtain ⟨_, _, _, _, _, _, _, h8, h9, h10⟩ := digit_facts c hc
      exact ⟨c, t, hct, h10, h8, h9⟩
  | str s => exact ⟨'"', _, rfl, by decide, by decide, by decide⟩
  | arr elems => exact ⟨'[', _, rfl, by decide, by decide, by decide⟩
  | obj fields => exact ⟨lbrace, _, rfl, by decide, by decide, by decide⟩

set_option maxHeartbeats 1000000 in
theorem parse_render_master : ∀ fuel : ℕ,
    (∀ j rest, (renderJson j).length ≤ fuel → headNotDigit rest = true →
       parseVal fuel (renderJson j ++ rest) = some (j, rest)) ∧
    (∀ xs rest, xs ≠ [] → (renderArr xs).length < fuel →
       parseArrItems fuel (renderArr xs ++ ']' :: rest) = some (xs, rest)) ∧
    (∀ kvs rest, kvs ≠ [] → (renderObj kvs).length < fuel →
       parseObjItems fuel (renderObj kvs ++ rbrace :: rest) = some (kvs, rest)) := by
  intro fuel
  induction fuel with
  | zero =>
    refine ⟨?_, ?_, ?_⟩
    · intro j rest hlen _
      exact absurd hlen (by have := renderJson_length_pos j; omega)
    · intro xs rest _ hlen
      omega
    · intro kvs rest _ hlen
      omega
  | succ fuel ih =>
    obtain ⟨P, Q, R⟩ := ih
    refine ⟨?_, ?_, ?_⟩
    · intro j rest hlen hrest
      cases j with
      | null =>
        simp only [renderJson, litNull, List.cons_append, List.nil_append]
        rw [parseVal, skipWs_cons_neg _ _ (by decide)]
        simp [dropPre, litNull, litTrue, litFalse]
      | bool b =>
        cases b <;>
          · simp only [renderJson, litTrue, litFalse, List.cons_append, List.nil_append]
            rw [parseVal, skipWs_cons_neg _ _ (by decide)]
            simp [dropPre, litNull, litTrue, litFalse]
      | num n =>
        simp only [renderJson, renderInt] at hlen ⊢
        by_cases hn : n < 0
        · rw [if_pos hn] at hlen ⊢
          obtain ⟨c0, t0, hct, hdig⟩ := renderNat_head_digit (-n).toNat
          rw [parseVal, List.cons_append, skipWs_cons_neg _ _ (by decide)]
          simp only [List.cons_append]
          rw [hct, List.cons_append]
          simp only [if_neg (by decide : ¬('-' : Char) = 'n'),
            if_neg (by decide : ¬('-' : Char) = 't'), if_neg (by decide : ¬('-' : Char) = 'f'),
            if_neg (by decide : ¬('-' : Char) = '"'), if_neg (by decide : ¬('-' : Char) = '['),
            if_neg (by decide : ¬('-' : Char) = lbrace), if_pos (rfl : ('-' : Char) = '-')]
          simp only [hdig, if_pos]
          rw [← List.cons_append, ← hct, parseDigits_renderNat, parseDigits_stop _ _ hrest]
          simp only [Nat.zero_mul, Nat.zero_add, Option.some.injEq, Prod.mk.injEq,
            Json.num.injEq, and_true, true_and]
          omega
        · rw [if_neg hn] at hlen ⊢
          obtain ⟨c0, t0, hct, hdig⟩ := renderNat_head_digit n.toNat
          obtain ⟨g1, g2, g3, g4, g5, g6, g7, _, _, g10⟩ := digit_facts c0 hdig
          rw [parseVal, hct, List.cons_append, skipWs_cons_neg _ _ g10]
          simp only [if_neg g1, if_neg g2, if_neg g3, if_neg g4, if_neg g5, if_neg g6,
            if_neg g7, hdig, if_pos]
          rw [← List.cons_append, ← hct, parseDigits_renderNat, parseDigits_stop _ _ hrest]
          simp only [Nat.zero_mul, Nat.zero_add, Option.some.injEq, Prod.mk.injEq,
            Json.num.injEq, and_true, true_and]
          omega
      | str s =>
        simp only [renderJson, renderStr, List.cons_append, List.append_assoc,
          List.singleton_append]
        rw [parseVal, skipWs_cons_neg _ _ (by decide)]
        simp [parseStrBody_flatMap]
      | arr elems =>
        cases elems with
        | nil =>
          simp only [renderJson, renderArr, List.nil_append, List.cons_append]
          rw [parseVal, skipWs_cons_neg _ _ (by decide)]
          simp only [if_neg (by decide : ¬('[' : Char) = 'n'),
            if_neg (by decide : ¬('[' : Char) = 't'), if_neg (by decide : ¬('[' : Char) = 'f'),
            if_neg (by decide : ¬('[' : Char) = '"'), if_pos (rfl : ('[' : Char) = '[')]
          rw [skipWs_cons_neg _ _ (by decide)]
          simp
        | cons x xs =>
          simp only [renderJson, List.cons_append, List.append_assoc,
            List.singleton_append] at hlen ⊢
          obtain ⟨c1, t1, hct1, hws1, hne1, _⟩ := renderJson_head x
          have harr : ∃ t2, renderArr (x :: xs) = c1 :: t2 := by
            cases xs with
            | nil => exact ⟨t1, by simp [renderArr, hct1]⟩
            | cons y ys =>
              refine ⟨t1 ++ ',' :: renderArr (y :: ys), ?_⟩
              rw [renderArr, hct1]
              simp
          obtain ⟨t2, harr⟩ := harr
          rw [parseVal, skipWs_cons_neg _ _ (by decide)]
          simp only [if_neg (by decide : ¬('[' : Char) = 'n'),
            if_neg (by decide : ¬('[' : Char) = 't'), if_neg (by decide : ¬('[' : Char) = 'f'),
            if_neg (by decide : ¬('[' : Char) = '"'), if_pos (rfl : ('[' : Char) = '[')]
          rw [harr, List.cons_append, skipWs_cons_neg _ _ hws1]
          simp only [List.head?_cons, Option.some.injEq]
          rw [if_neg hne1, ← List.cons_append, ← harr]
          simp only [List.nil_append, if_true]
          rw [Q (x :: xs) rest (by simp) (by
            simp only [List.length_cons, List.length_append] at hlen
            omega)]
          rfl
      | obj fields =>
        cases fields with
        | nil =>
          simp only [renderJson, renderObj, List.nil_append, List.cons_append]
          rw [parseVal, skipWs_cons_neg _ _ (by decide)]
          simp only [if_neg (by decide : ¬lbrace = 'n'),
            if_neg (by decide : ¬lbrace = 't'), if_neg (by decide : ¬lbrace = 'f'),
            if_neg (by decide : ¬lbrace = '"'), if_neg (by decide : ¬lbrace = '['),
            if_pos (rfl : lbrace = lbrace)]
          rw [skipWs_cons_neg _ _ (by decide)]
          simp
        | cons kv kvs =>
          simp only [renderJson, List.cons_append, List.append_assoc,
            List.singleton_append] at hlen ⊢
          have hobj : ∃ t2, renderObj (kv :: kvs) = '"' :: t2 := by
            cases kvs with
            | nil =>
              refine ⟨kv.1.flatMap escapeChar ++ '"' :: ':' :: renderJson kv.2, ?_⟩
              rw [renderObj, renderStr]
              simp
            | cons kv2 kvs2 =>
              refine ⟨kv.1.flatMap escapeChar
                ++ '"' :: ':' :: (renderJson kv.2 ++ ',' :: renderObj (kv2 :: kvs2)), ?_⟩
              rw [renderObj, renderStr]
              simp
          obtain ⟨t2, hobj⟩ := hobj
          rw [parseVal, skipWs_cons_neg _ _ (by decide)]
          simp only [if_neg (by decide : ¬lbrace = 'n'),
            if_neg (by decide : ¬lbrace = 't'), if_neg (by decide : ¬lbrace = 'f'),
            if_neg (by decide : ¬lbrace = '"'), if_neg (by decide : ¬lbrace = '['),
            if_pos (rfl : lbrace = lbrace)]
          rw [hobj, List.cons_append, skipWs_cons_neg _ _ (by decide)]
          simp only [List.head?_cons, Option.some.injEq]
          rw [if_neg (by decide : ¬('"' : Char) = rbrace), ← List.cons_append, ← hobj]
          simp only [List.nil_append, if_true]
          rw [R (kv :: kvs) rest (by simp) (by
            simp only [List.length_cons, List.length_append] at hlen
            omega)]
          rfl
    · intro xs rest hne hlen
      match xs, hne with
      | [x], _ =>
        simp only [renderArr] at hlen ⊢
        rw [parseArrItems]
        rw [P x (']' :: rest) (by omega) (by rw [headNotDigit]; decide)]
        simp [skipWs_cons_neg _ _ (by decide : jsonWsChar ']' = false)]
      | x :: x2 :: xs2, _ =>
        simp only [renderArr, List.cons_append, List.append_assoc,
          List.singleton_append] at hlen ⊢
        rw [parseArrItems]
        have hx : (renderJson x).length ≤ fuel := by
          simp only [List.length_cons, List.length_append] at hlen
          have := renderJson_length_pos x2
          omega
        rw [P x (',' :: (renderArr (x2 :: xs2) ++ ']' :: rest)) hx
          (by rw [headNotDigit]; decide)]
        simp only [skipWs_cons_neg _ _ (by decide : jsonWsChar ',' = false)]
        rw [Q (x2 :: xs2) rest (by simp) (by
          simp only [List.length_cons, List.length_append] at hlen
          have := renderJson_length_pos x
          omega)]
        simp
    · intro kvs rest hne hlen
      match kvs, hne with
      | (k, v) :: kvs2, _ =>
        rw [parseObjItems]
        cases kvs2 with
        | nil =>
          simp only [renderObj, renderStr, List.cons_append, List.append_assoc,
            List.singleton_append] at hlen ⊢
          rw [skipWs_cons_neg _ _ (by decide)]
          simp only [if_pos (rfl : ('"' : Char) = '"')]
          rw [parseStrBody_flatMap]
          simp only [List.nil_append, if_true,
            skipWs_cons_neg _ _ (by decide : jsonWsChar ':' = false)]
          have hv : (renderJson v).length ≤ fuel := by
            simp only [List.length_cons, List.length_append] at hlen
            omega
          rw [P v (rbrace :: rest) hv (by rw [headNotDigit]; decide)]
          simp only [skipWs_cons_neg _ _ (by decide : jsonWsChar rbrace = false),
            if_neg (by decide : ¬rbrace = ','), if_pos (rfl : rbrace = rbrace), if_true]
        | cons kv2 kvs3 =>
          simp only [renderObj, renderStr, List.cons_append, List.append_assoc,
            List.singleton_append] at hlen ⊢
          rw [skipWs_cons_neg _ _ (by decide)]
          simp only [if_pos (rfl : ('"' : Char) = '"')]
          rw [parseStrBody_flatMap]
          simp only [List.nil_append, if_true,
            skipWs_cons_neg _ _ (by decide : jsonWsChar ':' = false)]
          have hv : (renderJson v).length ≤ fuel := by
            simp only [List.length_cons, List.length_append] at hlen
            omega
          rw [P v (',' :: (renderObj (kv2 :: kvs3) ++ rbrace :: rest)) hv
            (by rw [headNotDigit]; decide)]
          simp only [skipWs_cons_neg _ _ (by decide : jsonWsChar ',' = false)]
          rw [R (kv2 :: kvs3) rest (by simp) (by
            simp only [List.length_cons, List.length_append] at hlen
            have := renderJson_length_pos v
            omega)]
          simp

theorem parseDelta_renderJson (j : Json) : parseDelta (renderJson j) = some j := by
  unfold parseDelta
  have hp := (parse_render_master ((renderJson j).length + 1)).1 j [] (by omega) rfl
  rw [List.append_nil] at hp
  rw [hp]
  simp [skipWs]

/-- The `ops` field name of a serialized delta. -/
def opsKey : Str := "ops".data

/-- The `insert` field name of a delta operation. -/
def insertKey : Str := "insert".data

/-- The `attributes` field name of a delta operation. -/
def attributesKey : Str := "attributes".data

/-- Whether `typeof v === "object"` for a JSON value (arrays and `null`
included, as in JavaScript). -/
def typeofObject : Json → Bool
  | .null => true
  | .arr _ => true
  | .obj _ => true
  | _ => false

/-- One iteration of the meaningfulness loop of
`isMeaningfulSerializedContents`: a string insert counts when it has
content besides newlines and surrounding whitespace, and any non-null
object insert counts. -/
def meaningfulOp (op : Json) : Bool :=
  match op.getField insertKey with
  | some (Json.str s) => jsTrim (removeNewlines s) ≠ []
  | some ins => ins.truthy && typeofObject ins
  | none => false

/-- The `Array.isArray(delta.ops)` guard and operation loop of
`isMeaningfulSerializedContents`: a non-array `ops` value is treated as
meaningful raw input; an empty operation list is not meaningful; otherwise
some operation must carry meaningful content. -/
def meaningfulOps : Json → Bool
  | Json.arr ops => if ops.isEmpty then false else ops.any meaningfulOp
  | _ => true

/-- The part of `isMeaningfulSerializedContents` applied to the parsed
delta: a falsy parse result (`!delta`) is treated as meaningful raw input,
an absent or non-array `ops` field likewise; otherwise the operations
decide. -/
def meaningfulDelta (delta : Json) : Bool :=
  if !delta.truthy then true
  else ((delta.getField opsKey).map meaningfulOps).getD true

/-- Model of the editor's `isMeaningfulSerializedContents`: an
all-whitespace string is not meaningful; a string that does not parse as
JSON (`parseDelta` returns `null`) is meaningful raw text; otherwise the
parsed delta decides. -/
def isMeaningfulSerializedContents (contents : Str) : Bool :=
  if jsTrim contents = [] then false
  else ((parseDelta contents).map meaningfulDelta).getD true

/-- Model of `quill.getText()` on a document: the concatenation of its
string inserts. -/
def quillGetText (d : Json) : Str :=
  match d.getField opsKey with
  | some (Json.arr ops) =>
    (ops.map (fun op =>
      match op.getField insertKey with
      | some (Json.str s) => s
      | _ => [])).flatten
  | _ => []

/-- The embed test of `serializeContents`:
`delta.ops?.some((op) => op.insert !== null && typeof op.insert === "object") ?? false`. -/
def hasEmbedJson (d : Json) : Bool :=
  match d.getField opsKey with
  | some (Json.arr ops) =>
    ops.any (fun op =>
      match op.getField insertKey with
      | some ins => ins.isObjectNonNull
      | none => false)
  | _ => false

/-- Model of the editor's `serializeContents`, as a function of the live
document `d` (`quill.getContents()`): the empty string for an embed-free,
visually empty document, and `JSON.stringify(delta)` otherwise. -/
def serializeContentsOf (d : Json) : Str :=
  if !hasEmbedJson d && jsTrim (quillGetText d) = [] then []
  else renderJson d

/-- Attribute values Quill attaches to delta operations (booleans, small
integers such as header levels, and strings such as list kinds or URLs). -/
inductive QuillAttrVal where
  | bool (b : Bool) : QuillAttrVal
  | num (n : Int) : QuillAttrVal
  | str (s : Str) : QuillAttrVal
deriving DecidableEq

/-- An insertion of a delta operation: plain text or an embedded object
(keyed payload, e.g. an image URL). -/
inductive QuillInsert where
  | text (s : Str) : QuillInsert
  | embed (key : Str) (value : Str) : QuillInsert
deriving DecidableEq

/-- One operation of a Quill delta document. -/
structure QuillOp where
  insert : QuillInsert
  attributes : List (Str × QuillAttrVal)
deriving DecidableEq

/-- A document the editor can produce: an ordered list of insertions. -/
abbrev QuillDoc := List QuillOp

/-- JSON form of an attribute value. -/
def QuillAttrVal.toJson : QuillAttrVal → Json
  | .bool b => Json.bool b
  | .num n => Json.num n
  | .str s => Json.str s

/-- JSON form of an insertion. -/
def QuillInsert.toJson : QuillInsert → Json
  | .text s => Json.str s
  | .embed k v => Json.obj [(k, Json.str v)]

/-- JSON form of a delta operation, with the `attributes` field present
only when attributes exist, as Quill serializes it. -/
def QuillOp.toJson (op : QuillOp) : Json :=
  Json.obj ((insertKey, op.insert.toJson) ::
    (if op.attributes = [] then []
     else [(attributesKey,
       Json.obj (op.attributes.map (fun kv => (kv.1, kv.2.toJson))))]))

/-- JSON form of a document, `{"ops": [...]}`. -/
def QuillDoc.toJson (d : QuillDoc) : Json :=
  Json.obj [(opsKey, Json.arr (d.map QuillOp.toJson))]

/-- Concatenated plain-text content of a document. -/
def docText (d : QuillDoc) : Str :=
  (d.map (fun op =>
    match op.insert with
    | .text s => s
    | .embed _ _ => [])).flatten

/-- Does the document contain an embedded (non-text) insertion? -/
def docHasEmbed (d : QuillDoc) : Bool :=
  d.any (fun op =>
    match op.insert with
    | .embed _ _ => true
    | .text _ => false)

theorem QuillDoc.getField_ops (d : QuillDoc) :
    (QuillDoc.toJson d).getField opsKey = some (Json.arr (d.map QuillOp.toJson)) := by
  simp [QuillDoc.toJson, Json.getField, List.lookup]

theorem QuillOp.getField_insert (op : QuillOp) :
    (QuillOp.toJson op).getField insertKey = some op.insert.toJson := by
  simp [QuillOp.toJson, Json.getField, List.lookup]

theorem hasEmbed_map_aux (ops : List QuillOp) :
    ((ops.map QuillOp.toJson).any (fun op =>
      match op.getField insertKey with
      | some ins => ins.isObjectNonNull
      | none => false)) = docHasEmbed ops := by
  induction ops with
  | nil => rfl
  | cons op t ih =>
    simp only [List.map_cons, List.any_cons, ih, docHasEmbed]
    congr 1
    rw [QuillOp.getField_insert]
    cases op.insert <;> rfl

theorem hasEmbedJson_toJson (d : QuillDoc) :
    hasEmbedJson (QuillDoc.toJson d) = docHasEmbed d := by
  unfold hasEmbedJson
  rw [QuillDoc.getField_ops]
  exact hasEmbed_map_aux d

theorem getText_map_aux (ops : List QuillOp) :
    ((ops.map QuillOp.toJson).map (fun op =>
      match op.getField insertKey with
      | some (Json.str s) => s
      | _ => [])).flatten = docText ops := by
  induction ops with
  | nil => rfl
  | cons op t ih =>
    simp only [List.map_cons, List.flatten_cons, ih, docText]
    congr 1
    rw [QuillOp.getField_insert]
    cases op.insert <;> rfl

theorem quillGetText_toJson (d : QuillDoc) :
    quillGetText (QuillDoc.toJson d) = docText d := by
  unfold quillGetText
  rw [QuillDoc.getField_ops]
  exact getText_map_aux d

theorem jsTrim_ne_nil_of_mem (s : Str) (c : Char) (hc : c ∈ s) (hw : isWsChar c = false) :
    jsTrim s ≠ [] := by
  intro h
  rw [jsTrim_eq_nil_iff] at h
  rw [h c hc] at hw
  exact Bool.true_eq_false.mp hw

theorem removeNewlines_trim_ne_nil (s : Str) (c : Char) (hc : c ∈ s)
    (hw : isWsChar c = false) : jsTrim (removeNewlines s) ≠ [] := by
  refine jsTrim_ne_nil_of_mem _ c ?_ hw
  unfold removeNewlines
  rw [List.mem_filter]
  refine ⟨hc, ?_⟩
  simp only [ne_eq, decide_eq_true_eq]
  intro hcn
  subst hcn
  exact absurd hw (by decide)

theorem meaningfulOp_text (op : QuillOp) (s : Str) (hins : op.insert = QuillInsert.text s)
    (c : Char) (hc : c ∈ s) (hw : isWsChar c = false) :
    meaningfulOp (QuillOp.toJson op) = true := by
  unfold meaningfulOp
  rw [QuillOp.getField_insert, hins]
  simp only [QuillInsert.toJson]
  exact decide_eq_true (removeNewlines_trim_ne_nil s c hc hw)

theorem meaningfulOp_embed (op : QuillOp) (k v : Str)
    (hins : op.insert = QuillInsert.embed k v) :
    meaningfulOp (QuillOp.toJson op) = true := by
  unfold meaningfulOp
  rw [QuillOp.getField_insert, hins]
  rfl

theorem serializeContentsOf_eq_nil (D : QuillDoc) (he : docHasEmbed D = false)
    (hw : ∀ c ∈ docText D, isWsChar c = true) :
    serializeContentsOf (QuillDoc.toJson D) = [] := by
  unfold serializeContentsOf
  rw [hasEmbedJson_toJson, quillGetText_toJson, he]
  rw [if_pos]
  rw [(jsTrim_eq_nil_iff _).mpr hw]
  simp

theorem serializeContentsOf_eq_render (D : QuillDoc)
    (h : docHasEmbed D = true ∨ ∃ c ∈ docText D, isWsChar c = false) :
    serializeContentsOf (QuillDoc.toJson D) = renderJson (QuillDoc.toJson D) := by
  unfold serializeContentsOf
  rw [hasEmbedJson_toJson, quillGetText_toJson]
  rcases h with he | ⟨c, hc, hw⟩
  · rw [he]
    simp
  · rw [if_neg]
    simp only [Bool.and_eq_true, Bool.not_eq_true', decide_eq_true_eq, not_and]
    intro _
    exact jsTrim_ne_nil_of_mem _ c hc hw

theorem isMeaningful_nil : isMeaningfulSerializedContents [] = false := by decide

theorem isMeaningful_render_toJson (D : QuillDoc)
    (h : (∃ op ∈ D, ∃ s, op.insert = QuillInsert.text s ∧ ∃ c ∈ s, isWsChar c = false) ∨
         (∃ op ∈ D, ∃ k v, op.insert = QuillInsert.embed k v)) :
    isMeaningfulSerializedContents (renderJson (QuillDoc.toJson D)) = true := by
  unfold isMeaningfulSerializedContents
  have hhead : ∃ t, renderJson (QuillDoc.toJson D) = lbrace :: t := by
    rw [QuillDoc.toJson, renderJson]
    exact ⟨_, rfl⟩
  obtain ⟨t, ht⟩ := hhead
  rw [if_neg (by
    rw [ht]
    exact jsTrim_ne_nil_of_mem _ lbrace (List.mem_cons_self _ _) (by decide))]
  rw [parseDelta_renderJson]
  simp only [Option.map_some', Option.getD_some]
  unfold meaningfulDelta
  have htr : (QuillDoc.toJson D).truthy = true := by rw [QuillDoc.toJson]; rfl
  rw [htr]
  simp only [Bool.not_true, Bool.false_eq_true, if_false]
  rw [QuillDoc.getField_ops]
  simp only [Option.map_some', Option.getD_some, meaningfulOps]
  have hne : D ≠ [] := by
    rcases h with ⟨op, hmem, _⟩ | ⟨op, hmem, _⟩ <;> exact List.ne_nil_of_mem hmem
  rw [if_neg (by
    simp only [List.isEmpty_eq_true, List.map_eq_nil_iff]
    exact hne)]
  rw [List.any_eq_true]
  rcases h with ⟨op, hmem, s, hins, c, hc, hw⟩ | ⟨op, hmem, k, v, hins⟩
  · exact ⟨QuillOp.toJson op, List.mem_map_of_mem _ hmem,
      meaningfulOp_text op s hins c hc hw⟩
  · exact ⟨QuillOp.toJson op, List.mem_map_of_mem _ hmem,
      meaningfulOp_embed op k v hins⟩

/-- C5: for every document that contains no embedded-object insertions and
whose concatenated plain-text content is whitespace-only (including
documents made only of empty or newline/whitespace text insertions),
`serializeContents` returns the empty string; otherwise it returns the
JSON encoding of the document; and `isMeaningful("")` is false. -/
theorem C5_serialize_empty_policy (D : QuillDoc) :
    (docHasEmbed D = false → (∀ c ∈ docText D, isWsChar c = true) →
      serializeContentsOf (QuillDoc.toJson D) = []) ∧
    ((docHasEmbed D = true ∨ ∃ c ∈ docText D, isWsChar c = false) →
      serializeContentsOf (QuillDoc.toJson D) = renderJson (QuillDoc.toJson D)) ∧
    isMeaningfulSerializedContents [] = false :=
  ⟨serializeContentsOf_eq_nil D, serializeContentsOf_eq_render D, isMeaningful_nil⟩

/-- Witness for C5 at concrete documents: a whitespace-only document
serializes to the empty string, and the empty string is not meaningful. -/
theorem C5_serialize_empty_policy_witness :
    serializeContentsOf (QuillDoc.toJson [⟨QuillInsert.text [' ', '\n'], []⟩]) = [] ∧
    isMeaningfulSerializedContents [] = false :=
  ⟨(C5_serialize_empty_policy [⟨QuillInsert.text [' ', '\n'], []⟩]).1 (by decide) (by decide),
    (C5_serialize_empty_policy []).2.2⟩

/-- C6: for every document containing at least one text insertion with
non-whitespace content or at least one embedded insertion,
`isMeaningful(serialize(D))` is true and `deserialize(serialize(D))`
succeeds, reconstructing exactly the document's delta (round-trip law). -/
theorem C6_meaningful_roundtrip (D : QuillDoc)
    (h : (∃ op ∈ D, ∃ s, op.insert = QuillInsert.text s ∧ ∃ c ∈ s, isWsChar c = false) ∨
         (∃ op ∈ D, ∃ k v, op.insert = QuillInsert.embed k v)) :
    isMeaningfulSerializedContents (serializeContentsOf (QuillDoc.toJson D)) = true ∧
    parseDelta (serializeContentsOf (QuillDoc.toJson D)) = some (QuillDoc.toJson D) := by
  have hser := serializeContentsOf_eq_render D (by
    rcases h with ⟨op, hmem, s, hins, c, hc, hw⟩ | ⟨op, hmem, k, v, hins⟩
    · right
      refine ⟨c, ?_, hw⟩
      unfold docText
      rw [List.mem_flatten]
      refine ⟨s, ?_, hc⟩
      rw [List.mem_map]
      exact ⟨op, hmem, by rw [hins]⟩
    · left
      rw [docHasEmbed, List.any_eq_true]
      exact ⟨op, hmem, by rw [hins]⟩)
  rw [hser]
  exact ⟨isMeaningful_render_toJson D h, parseDelta_renderJson _⟩

/-- Witness for C6 at a concrete document holding the text `"hi\n"`. -/
theorem C6_meaningful_roundtrip_witness :
    isMeaningfulSerializedContents
        (serializeContentsOf (QuillDoc.toJson [⟨QuillInsert.text ['h', 'i', '\n'], []⟩]))
      = true ∧
    parseDelta (serializeContentsOf (QuillDoc.toJson [⟨QuillInsert.text ['h', 'i', '\n'], []⟩]))
      = some (QuillDoc.toJson [⟨QuillInsert.text ['h', 'i', '\n'], []⟩]) :=
  C6_meaningful_roundtrip [⟨QuillInsert.text ['h', 'i', '\n'], []⟩]
    (Or.inl ⟨⟨QuillInsert.text ['h', 'i', '\n'], []⟩, List.mem_cons_self _ _,
      ['h', 'i', '\n'], rfl, 'h', by decide, by decide⟩)

/-- JavaScript numbers as they matter to the `zoom` payload checks: an
exact rational, or one of the non-finite values. -/
inductive JSNum where
  | num (q : ℚ) : JSNum
  | nan : JSNum
  | inf : JSNum
  | negInf : JSNum
deriving DecidableEq

/-- JavaScript truthiness of a number (`0` and `NaN` are falsy). -/
def JSNum.truthy : JSNum → Bool
  | .num q => q ≠ 0
  | .nan => false
  | .inf => true
  | .negInf => true

/-- `Number.isFinite`. -/
def JSNum.isFiniteNum : JSNum → Bool
  | .num _ => true
  | _ => false

/-- The rational value of a finite JavaScript number. -/
def JSNum.toQ : JSNum → ℚ
  | .num q => q
  | _ => 0

/-- One invocation of the persistence gateway
(`invoke("save_contents", {noteId, contents, color, zoom})`). -/
structure GatewayCall where
  noteId : Str
  contents : Str
  color : Str
  zoom : ℚ
deriving DecidableEq

/-- Measurements of the editor element read by the geometry controller. -/
structure ElemBox where
  scrollHeight : ℚ
  clientHeight : ℚ
deriving DecidableEq

/-- DOM/window readings available to a `text-change` reaction: the
`.ql-editor` element (if present) and the window's current logical size. -/
structure GeomOracle where
  editorEl : Option ElemBox
  winWidth : ℚ
  winHeight : ℚ
deriving DecidableEq

/-- The editor's 2-pixel resize threshold. -/
def RESIZE_THRESHOLD_PX : ℤ := 2

/-- `Math.ceil(editor.scrollHeight - editor.clientHeight)`. -/
def overflowHeight (e : ElemBox) : ℤ :=
  ⌈e.scrollHeight - e.clientHeight⌉

/-- Model of `growWindowToFitEditorContent`: `none` when no resize call is
issued, `some (width, height)` for the issued `setSize` call; the new size
is computed from the window size read at call time. -/
def growWindowToFitEditorContent (e : ElemBox) (winW winH : ℚ) : Option (ℚ × ℚ) :=
  if overflowHeight e ≤ RESIZE_THRESHOLD_PX then none
  else some (winW, winH + (overflowHeight e : ℚ))

/-- The state of one note window: wall-clock time, the editor document
(`none` before construction), the bound note id, the external-update
suppression flag, the armed debounce deadline, the container's style
(background color and zoom), and logs of the effects issued so far. -/
structure NoteState where
  now : ℕ
  quill : Option Json
  noteId : Str
  applyingExternalUpdate : Bool
  saveTimeout : Option ℕ
  noteColor : Str
  defaultColor : Str
  zoomStyle : Option ℚ
  savedLog : List GatewayCall
  cmdLog : List Str
  resizeLog : List (ℚ × ℚ)

/-- `getNoteColor()`: the container's background color, or the theme
default when unset (the empty style string is falsy). -/
def getNoteColor (st : NoteState) : Str :=
  if st.noteColor = [] then st.defaultColor else st.noteColor

/-- `getZoomLevel()`: the parsed `style.zoom`, defaulting to `1.0`. -/
def getZoomLevel (st : NoteState) : ℚ :=
  st.zoomStyle.getD 1

/-- Model of `persistContents`: a no-op unless the editor is constructed
and a note id is bound; otherwise one gateway invocation carrying the
freshly serialized document and current visual state. -/
def persistContents (st : NoteState) : NoteState :=
  match st.quill with
  | none => st
  | some d =>
    if st.noteId = [] then st
    else { st with savedLog := st.savedLog ++
      [⟨st.noteId, serializeContentsOf d, getNoteColor st, getZoomLevel st⟩] }

/-- Model of the editor's `save_contents(force)`: clear any armed timer;
then either persist immediately (forced) or arm a 300 ms debounce timer. -/
def save_contents (force : Bool) (st : NoteState) : NoteState :=
  let st1 := { st with saveTimeout := none }
  if force then persistContents st1
  else { st1 with saveTimeout := some (st1.now + 300) }

/-- Advance time by `δ` milliseconds; a timer whose deadline is reached
fires: its callback persists the live document and clears the slot. -/
def tick (δ : ℕ) (st : NoteState) : NoteState :=
  let st1 := { st with now := st.now + δ }
  match st.saveTimeout with
  | some dl =>
    if dl ≤ st1.now then persistContents { st1 with saveTimeout := none } else st1
  | none => st1

/-- The geometry reaction of the `text-change` handler: query the editor
element and window, and issue the resize `growWindowToFitEditorContent`
decides on. -/
def geomReact (g : GeomOracle) (st : NoteState) : NoteState :=
  match g.editorEl with
  | none => st
  | some e =>
    match growWindowToFitEditorContent e g.winWidth g.winHeight with
    | none => st
    | some sz => { st with resizeLog := st.resizeLog ++ [sz] }

/-- The resize calls the geometry reaction appends for a given oracle. -/
def geomCalls (g : GeomOracle) : List (ℚ × ℚ) :=
  match g.editorEl with
  | none => []
  | some e =>
    match growWindowToFitEditorContent e g.winWidth g.winHeight with
    | none => []
    | some sz => [sz]

/-- Model of the `text-change` handler: schedule a save unless the
suppression flag is set or the change source is `"silent"`; always run the
geometry adjustment. -/
def textChangeHandler (source : Str) (g : GeomOracle) (st : NoteState) : NoteState :=
  let st1 := if !st.applyingExternalUpdate && source ≠ "silent".data
             then save_contents false st
             else st
  geomReact g st1

/-- The document `quill.setText(s)` produces: a single text insertion,
with the trailing newline every Quill document carries. -/
def quillTextDoc (s : Str) : Json :=
  Json.obj [(opsKey, Json.arr [Json.obj [(insertKey,
    Json.str (if s.getLast? = some '\n' then s else s ++ ['\n']))]])]

/-- The shared `const delta = parseDelta(contents); if (delta)
setContents(delta) else setText(contents)` dispatch: the document the
editor holds afterwards.  `setContents` is modelled as wholesale
replacement by the parsed delta. -/
def applyContentsDoc (contents : Str) : Json :=
  match parseDelta contents with
  | some delta => if delta.truthy then delta else quillTextDoc contents
  | none => quillTextDoc contents

/-- Model of `apply_external_contents`: a no-op without an editor;
otherwise set the suppression flag, replace the document (meaningful
serialized contents are deserialized, with a plain-text fallback;
non-meaningful contents clear the editor), let the `text-change` handler
run on the mutation, and clear the flag. -/
def apply_external_contents (contents : Str) (g : GeomOracle) (st : NoteState) : NoteState :=
  match st.quill with
  | none => st
  | some _ =>
    let newDoc := if isMeaningfulSerializedContents contents
                  then applyContentsDoc contents
                  else quillTextDoc []
    let st1 := { st with applyingExternalUpdate := true, quill := some newDoc }
    let st2 := textChangeHandler "api".data g st1
    { st2 with applyingExternalUpdate := false }

/-- The startup payload `window.__STICKY_INIT__` of a note window. -/
structure StickyInit where
  id : Str
  contents : Str
  color : Str
deriving DecidableEq

/-- The document a freshly constructed Quill editor holds. -/
def emptyQuillDoc : Json := quillTextDoc []

/-- Model of the editor's `onMount`: construct the editor, bind the note
id when the payload carries one, load meaningful initial contents, and set
the container color (payload color, or the theme default). -/
def initialNoteState (init : Option StickyInit) (dc : Str) : NoteState where
  now := 0
  quill := some (match init with
    | some i =>
      if i.contents ≠ [] && isMeaningfulSerializedContents i.contents
      then applyContentsDoc i.contents
      else emptyQuillDoc
    | none => emptyQuillDoc)
  noteId := match init with
    | some i => i.id
    | none => []
  applyingExternalUpdate := false
  saveTimeout := none
  noteColor := match init with
    | some i => if i.color ≠ [] then i.color else dc
    | none => dc
  defaultColor := dc
  zoomStyle := none
  savedLog := []
  cmdLog := []
  resizeLog := []

/-- Model of the `zoom` event listener of the sticky-note window: read the
current zoom (default `1`), step or reset it with clamping, write it back,
and force-flush the save path. -/
def zoomHandler (payload : Str) (st : NoteState) : NoteState :=
  let current := st.zoomStyle.getD 1
  let next := if payload = "in".data then min (current + 1 / 10) 2
              else if payload = "out".data then max (current - 1 / 10) (1 / 2)
              else if payload = "reset".data then 1
              else current
  save_contents true { st with zoomStyle := some next }

/-- The `external_note_update` event payload. -/
structure ExternalNoteUpdatePayload where
  contents : Str
  color : Str
  zoom : JSNum
deriving DecidableEq

/-- Model of the `external_note_update` listener: apply a truthy color,
apply the zoom when it is truthy and finite, then hand the contents to
`apply_external_contents`. -/
def externalNoteUpdateHandler (p : ExternalNoteUpdatePayload) (g : GeomOracle)
    (st : NoteState) : NoteState :=
  let st1 := if p.color ≠ [] then { st with noteColor := p.color } else st
  let st2 := if p.zoom.truthy && p.zoom.isFiniteNum
             then { st1 with zoomStyle := some p.zoom.toQ }
             else st1
  apply_external_contents p.contents g st2

/-- Model of `handleColorClick`: set the color, then force-flush. -/
def handleColorClick (c : Str) (st : NoteState) : NoteState :=
  save_contents true { st with noteColor := c }

/-- Model of the `set_color` listener: set the color (no flush). -/
def setColorHandler (c : Str) (st : NoteState) : NoteState :=
  { st with noteColor := c }

/-- `persistContents` with the gateway outcome made explicit: the second
component is `some e` when the gateway call was made and rejected. -/
def persistContentsRun (gwErr : Option Str) (st : NoteState) : NoteState × Option Str :=
  match st.quill with
  | none => (st, none)
  | some d =>
    if st.noteId = [] then (st, none)
    else ({ st with savedLog := st.savedLog ++
      [⟨st.noteId, serializeContentsOf d, getNoteColor st, getZoomLevel st⟩] }, gwErr)

/-- `save_contents` with the gateway outcome made explicit; only a forced
flush awaits the gateway, so only it can surface a rejection. -/
def save_contentsRun (gwErr : Option Str) (force : Bool) (st : NoteState) :
    NoteState × Option Str :=
  let st1 := { st with saveTimeout := none }
  if force then persistContentsRun gwErr st1
  else ({ st1 with saveTimeout := some (st1.now + 300) }, none)

/-- Model of `closeNote`: `await editor.save_contents(true)` then
`invoke("close_window")`; a rejected forced save propagates and the
`close_window` command is never issued. -/
def closeNote (gwErr : Option Str) (st : NoteState) : NoteState × Option Str :=
  match save_contentsRun gwErr true st with
  | (st1, none) => ({ st1 with cmdLog := st1.cmdLog ++ ["close_window".data] }, none)
  | (st1, some e) => (st1, some e)

/-- Model of a local user edit: the document mutates and the `text-change`
handler runs with source `"user"`. -/
def localEdit (d : Json) (g : GeomOracle) (st : NoteState) : NoteState :=
  match st.quill with
  | none => st
  | some _ => textChangeHandler "user".data g { st with quill := some d }

/-- Every trigger that can reach the save path of one note window:
passage of time, local edits, direct save requests (blur flush,
`save_request`, visibility/`beforeunload` shutdown flushes, the move/resize
debounce), zoom control events, color clicks, `set_color`,
`external_note_update`, and the close-note flow. -/
inductive NoteEv where
  | tickEv (δ : ℕ) : NoteEv
  | localEditEv (d : Json) (g : GeomOracle) : NoteEv
  | reqSaveEv (force : Bool) : NoteEv
  | zoomEv (payload : Str) : NoteEv
  | colorClickEv (c : Str) : NoteEv
  | setColorEv (c : Str) : NoteEv
  | externalUpdateEv (p : ExternalNoteUpdatePayload) (g : GeomOracle) : NoteEv
  | closeReqEv : NoteEv

/-- One step of the note window under an event. -/
def stepEv : NoteEv → NoteState → NoteState
  | .tickEv δ, st => tick δ st
  | .localEditEv d g, st => localEdit d g st
  | .reqSaveEv force, st => save_contents force st
  | .zoomEv p, st => zoomHandler p st
  | .colorClickEv c, st => handleColorClick c st
  | .setColorEv c, st => setColorHandler c st
  | .externalUpdateEv p g, st => externalNoteUpdateHandler p g st
  | .closeReqEv, st => (closeNote none st).1

/-- Run a sequence of events. -/
def runEvents (evs : List NoteEv) (st : NoteState) : NoteState :=
  evs.foldl (fun s e => stepEv e s) st

theorem persistContents_some (st : NoteState) (d : Json) (hq : st.quill = some d)
    (hid : st.noteId ≠ []) :
    persistContents st = { st with savedLog := st.savedLog ++
      [⟨st.noteId, serializeContentsOf d, getNoteColor st, getZoomLevel st⟩] } := by
  unfold persistContents
  split
  · rename_i heq
    rw [heq] at hq
    exact absurd hq (by simp)
  · rename_i d2 heq
    rw [heq] at hq
    obtain rfl : d2 = d := by injection hq
    rw [if_neg hid]

theorem persistContents_unbound (st : NoteState) (h : st.noteId = []) :
    persistContents st = st := by
  unfold persistContents
  split
  · rfl
  · rw [if_pos h]

theorem geomReact_spec (g : GeomOracle) (st : NoteState) :
    geomReact g st = { st with resizeLog := st.resizeLog ++ geomCalls g } := by
  unfold geomReact geomCalls
  cases g.editorEl with
  | none => simp
  | some e => cases h : growWindowToFitEditorContent e g.winWidth g.winHeight <;> simp [h]

/-- C1: during `apply_external_contents` on an initialized editor, the
`text-change` notification fired by the mutation observes the suppression
flag: the gateway log and the armed timer are exactly those from before the
call (no save is scheduled or forced), while the geometry adjustment still
runs as it would for a local edit; the flag is clear again afterwards. -/
theorem C1_echo_suppression (st : NoteState) (contents : Str) (g : GeomOracle)
    (d : Json) (hq : st.quill = some d) :
    (apply_external_contents contents g st).savedLog = st.savedLog ∧
    (apply_external_contents contents g st).saveTimeout = st.saveTimeout ∧
    (apply_external_contents contents g st).resizeLog = st.resizeLog ++ geomCalls g ∧
    (apply_external_contents contents g st).applyingExternalUpdate = false := by
  unfold apply_external_contents
  split
  · rename_i heq
    rw [heq] at hq
    exact absurd hq (by simp)
  · unfold textChangeHandler
    simp only [Bool.not_true, Bool.false_and, if_false, Bool.false_eq_true]
    rw [geomReact_spec]
    simp

/-- Witness for C1 at a concrete initialized state. -/
theorem C1_echo_suppression_witness :
    (apply_external_contents ['h', 'i'] ⟨none, 0, 0⟩
        { now := 0, quill := some emptyQuillDoc, noteId := ['n'],
          applyingExternalUpdate := false, saveTimeout := none, noteColor := [],
          defaultColor := ['c'], zoomStyle := none, savedLog := [], cmdLog := [],
          resizeLog := [] }).savedLog = [] ∧
    (apply_external_contents ['h', 'i'] ⟨none, 0, 0⟩
        { now := 0, quill := some emptyQuillDoc, noteId := ['n'],
          applyingExternalUpdate := false, saveTimeout := none, noteColor := [],
          defaultColor := ['c'], zoomStyle := none, savedLog := [], cmdLog := [],
          resizeLog := [] }).saveTimeout = none := by
  have h := C1_echo_suppression
    { now := 0, quill := some emptyQuillDoc, noteId := ['n'],
      applyingExternalUpdate := false, saveTimeout := none, noteColor := [],
      defaultColor := ['c'], zoomStyle := none, savedLog := [], cmdLog := [],
      resizeLog := [] } ['h', 'i'] ⟨none, 0, 0⟩ emptyQuillDoc rfl
  exact ⟨h.1, h.2.1⟩

/-- C3: a forced `save_contents(true)` while a debounce timer is armed
cancels the timer, performs exactly one immediate gateway invocation
(carrying the live document and visual state), leaves no timer armed, and
no later passage of time fires the cancelled timer. -/
theorem C3_forced_flush_cancels_timer (st : NoteState) (dl : ℕ) (d : Json)
    (hq : st.quill = some d) (hid : st.noteId ≠ []) (ht : st.saveTimeout = some dl) :
    (save_contents true st).savedLog = st.savedLog ++
      [⟨st.noteId, serializeContentsOf d, getNoteColor st, getZoomLevel st⟩] ∧
    (save_contents true st).saveTimeout = none ∧
    ∀ δ, (tick δ (save_contents true st)).savedLog = (save_contents true st).savedLog := by
  have hsave : save_contents true st =
      { st with
        saveTimeout := none
        savedLog := st.savedLog ++
          [⟨st.noteId, serializeContentsOf d, getNoteColor st, getZoomLevel st⟩] } := by
    show persistContents { st with saveTimeout := none } = _
    rw [persistContents_some { st with saveTimeout := none } d hq hid]
    rfl
  rw [hsave]
  refine ⟨rfl, rfl, ?_⟩
  intro δ
  unfold tick
  simp

/-- Witness for C3 at a concrete state with an armed timer. -/
theorem C3_forced_flush_cancels_timer_witness :
    (save_contents true
        { now := 0, quill := some emptyQuillDoc, noteId := ['n'],
          applyingExternalUpdate := false, saveTimeout := some 300, noteColor := [],
          defaultColor := ['c'], zoomStyle := none, savedLog := [], cmdLog := [],
          resizeLog := [] }).savedLog =
      [⟨['n'], serializeContentsOf emptyQuillDoc, ['c'], 1⟩] ∧
    (save_contents true
        { now := 0, quill := some emptyQuillDoc, noteId := ['n'],
          applyingExternalUpdate := false, saveTimeout := some 300, noteColor := [],
          defaultColor := ['c'], zoomStyle := none, savedLog := [], cmdLog := [],
          resizeLog := [] }).saveTimeout = none := by
  have h := C3_forced_flush_cancels_timer
    { now := 0, quill := some emptyQuillDoc, noteId := ['n'],
      applyingExternalUpdate := false, saveTimeout := some 300, noteColor := [],
      defaultColor := ['c'], zoomStyle := none, savedLog := [], cmdLog := [],
      resizeLog := [] } 300 emptyQuillDoc rfl (by decide) rfl
  refine ⟨?_, h.2.1⟩
  rw [h.1]
  rfl

/-- One rapid save request of a burst: `δ` milliseconds pass (less than
the quiet period), `save_contents(false)` is called, and the user goes on
typing so the live document becomes `d` after the call. -/
def burstStep (st : NoteState) (pd : ℕ × Json) : NoteState :=
  { save_contents false (tick pd.1 st) with quill := some pd.2 }

/-- A burst of rapid save requests. -/
def burstRun (ps : List (ℕ × Json)) (st : NoteState) : NoteState :=
  ps.foldl burstStep st

theorem tick_no_fire (δ : ℕ) (st : NoteState) (dl : ℕ)
    (ht : st.saveTimeout = some dl) (hlt : st.now + δ < dl) :
    tick δ st = { st with now := st.now + δ } := by
  unfold tick
  rw [ht]
  simp only [if_neg (by omega : ¬dl ≤ st.now + δ)]

theorem tick_idle (δ : ℕ) (st : NoteState) (ht : st.saveTimeout = none) :
    tick δ st = { st with now := st.now + δ } := by
  unfold tick
  rw [ht]

theorem save_contents_debounce (st : NoteState) :
    save_contents false st = { st with saveTimeout := some (st.now + 300) } := rfl

theorem burstRun_inv (ps : List (ℕ × Json)) (st : NoteState)
    (hps : ∀ p ∈ ps, p.1 < 300) (ht : st.saveTimeout = some (st.now + 300)) :
    (burstRun ps st).savedLog = st.savedLog ∧
    (burstRun ps st).saveTimeout = some ((burstRun ps st).now + 300) ∧
    (burstRun ps st).noteId = st.noteId ∧
    (burstRun ps st).noteColor = st.noteColor ∧
    (burstRun ps st).defaultColor = st.defaultColor ∧
    (burstRun ps st).zoomStyle = st.zoomStyle ∧
    (burstRun ps st).quill = (ps.getLast?.elim st.quill (fun p => some p.2)) := by
  induction ps generalizing st with
  | nil => exact ⟨rfl, ht.symm ▸ rfl, rfl, rfl, rfl, rfl, rfl⟩
  | cons p ps ih =>
    have hstep : burstStep st p =
        { st with
          now := st.now + p.1
          saveTimeout := some (st.now + p.1 + 300)
          quill := some p.2 } := by
      unfold burstStep
      rw [tick_no_fire p.1 st (st.now + 300) ht (by
        have := hps p (List.mem_cons_self p ps)
        omega)]
      rw [save_contents_debounce]
    have hrun : burstRun (p :: ps) st = burstRun ps (burstStep st p) := rfl
    rw [hrun, hstep]
    have ih2 := ih { st with
        now := st.now + p.1
        saveTimeout := some (st.now + p.1 + 300)
        quill := some p.2 }
      (fun q hq => hps q (List.mem_cons_of_mem p hq)) rfl
    refine ⟨ih2.1, ih2.2.1, ih2.2.2.1, ih2.2.2.2.1, ih2.2.2.2.2.1, ih2.2.2.2.2.2.1, ?_⟩
    rw [ih2.2.2.2.2.2.2]
    cases ps with
    | nil => rfl
    | cons q qs =>
      cases hl : (q :: qs).getLast? with
      | none => exact absurd hl (by simp)
      | some r => simp [List.getLast?_cons_cons, hl]

/-- C2: starting from an idle, initialized, bound note window, a burst of
`N ≥ 1` calls to `save_contents(false)` — each falling within less than
the 300 ms quiet period of its predecessor, with the document still
changing after each call — produces, once the quiet period elapses,
exactly one gateway invocation, and that invocation carries the
serialization of the live document as of timer firing (the document after
the burst), not a snapshot captured at any schedule time. -/
theorem C2_debounce_exactly_one_save (st : NoteState) (p0 : ℕ × Json)
    (ps : List (ℕ × Json)) (d0 : Json)
    (hq : st.quill = some d0) (hid : st.noteId ≠ []) (ht : st.saveTimeout = none)
    (hps : ∀ p ∈ ps, p.1 < 300) :
    (tick 300 (burstRun (p0 :: ps) st)).savedLog = st.savedLog ++
      [⟨st.noteId, serializeContentsOf ((ps.getLast?.getD p0).2),
        getNoteColor st, getZoomLevel st⟩] ∧
    (tick 300 (burstRun (p0 :: ps) st)).saveTimeout = none := by
  have hstep0 : burstStep st p0 =
      { st with
        now := st.now + p0.1
        saveTimeout := some (st.now + p0.1 + 300)
        quill := some p0.2 } := by
    unfold burstStep
    rw [tick_idle p0.1 st ht, save_contents_debounce]
  set stMid : NoteState :=
    { st with
      now := st.now + p0.1
      saveTimeout := some (st.now + p0.1 + 300)
      quill := some p0.2 } with hMid
  have hrun : burstRun (p0 :: ps) st = burstRun ps stMid := by
    show burstRun ps (burstStep st p0) = _
    rw [hstep0]
  obtain ⟨hlog, htmo, hnid, hcol, hdef, hzoom, hquill⟩ :=
    burstRun_inv ps stMid hps rfl
  set stB := burstRun ps stMid with hstB
  have hfire : tick 300 stB = persistContents
      { stB with now := stB.now + 300, saveTimeout := none } := by
    unfold tick
    rw [htmo]
    simp only [if_pos (by omega : stB.now + 300 ≤ stB.now + 300)]
  rw [hrun, hfire]
  have hdoc : stB.quill = some ((ps.getLast?.getD p0).2) := by
    rw [hquill]
    cases hl : ps.getLast? with
    | none => rfl
    | some q => rfl
  have hnid2 : stB.noteId = st.noteId := hnid
  have hcol2 : stB.noteColor = st.noteColor := hcol
  have hdef2 : stB.defaultColor = st.defaultColor := hdef
  have hzoom2 : stB.zoomStyle = st.zoomStyle := hzoom
  have hlog2 : stB.savedLog = st.savedLog := hlog
  rw [persistContents_some _ ((ps.getLast?.getD p0).2) (by simpa using hdoc)
    (by simpa [hnid2] using hid)]
  constructor
  · simp only []
    rw [hlog2, hnid2]
    unfold getNoteColor getZoomLevel
    simp only [hcol2, hdef2, hzoom2]
  · rfl

/-- A concrete initialized, bound, idle note state used by witnesses. -/
def witnessState : NoteState where
  now := 0
  quill := some emptyQuillDoc
  noteId := ['n']
  applyingExternalUpdate := false
  saveTimeout := none
  noteColor := []
  defaultColor := ['c']
  zoomStyle := none
  savedLog := []
  cmdLog := []
  resizeLog := []

/-- Witness for C2: two rapid debounced requests (the second 100 ms after
the first, with the text changing to `"b"` after it) yield exactly one
gateway call, carrying the serialization of the final document. -/
theorem C2_debounce_exactly_one_save_witness :
    (tick 300 (burstRun [(0, emptyQuillDoc), (100, quillTextDoc ['b'])] witnessState)).savedLog
      = [⟨['n'], serializeContentsOf (quillTextDoc ['b']), ['c'], 1⟩] ∧
    (tick 300 (burstRun [(0, emptyQuillDoc), (100, quillTextDoc ['b'])] witnessState)).saveTimeout
      = none := by
  have h := C2_debounce_exactly_one_save witnessState (0, emptyQuillDoc)
    [(100, quillTextDoc ['b'])] emptyQuillDoc rfl (by decide) rfl
    (by
      intro p hp
      simp only [List.mem_singleton] at hp
      rw [hp]
      norm_num)
  refine ⟨?_, h.2⟩
  rw [h.1]
  rfl

theorem apply_external_quill (contents : Str) (g : GeomOracle) (st : NoteState)
    (d : Json) (hq : st.quill = some d) :
    (apply_external_contents contents g st).quill =
      some (if isMeaningfulSerializedContents contents
            then applyContentsDoc contents
            else quillTextDoc []) := by
  unfold apply_external_contents
  split
  · rename_i heq
    rw [heq] at hq
    exact absurd hq (by simp)
  · unfold textChangeHandler
    simp only [Bool.not_true, Bool.false_and, if_false, Bool.false_eq_true]
    rw [geomReact_spec]

theorem apply_external_visual (contents : Str) (g : GeomOracle) (st : NoteState)
    (d : Json) (hq : st.quill = some d) :
    (apply_external_contents contents g st).noteColor = st.noteColor ∧
    (apply_external_contents contents g st).zoomStyle = st.zoomStyle := by
  unfold apply_external_contents
  split
  · rename_i heq
    rw [heq] at hq
    exact absurd hq (by simp)
  · unfold textChangeHandler
    simp only [Bool.not_true, Bool.false_and, if_false, Bool.false_eq_true]
    rw [geomReact_spec]
    exact ⟨rfl, rfl⟩

/-- C4 (amended): the `external_note_update` listener dispatches as
specified on the contents — meaningful serialized contents are
deserialized, a truthy parse replacing the document wholesale and a failed
or falsy parse falling back to the raw string as plain text, while
non-meaningful contents clear the editor — and applies a provided
(nonempty) color to the background; the zoom factor, however, is set
exactly when the supplied zoom is a finite NONZERO number: the claim's
"finite positive" does not match the code, whose
`payload.zoom && Number.isFinite(payload.zoom)` test also accepts negative
finite values. -/
theorem C4_external_update_dispatch (p : ExternalNoteUpdatePayload) (g : GeomOracle)
    (st : NoteState) (d : Json) (hq : st.quill = some d) :
    (isMeaningfulSerializedContents p.contents = true →
       (∀ delta, parseDelta p.contents = some delta → delta.truthy = true →
          (externalNoteUpdateHandler p g st).quill = some delta) ∧
       (parseDelta p.contents = none →
          (externalNoteUpdateHandler p g st).quill = some (quillTextDoc p.contents)) ∧
       (∀ delta, parseDelta p.contents = some delta → delta.truthy = false →
          (externalNoteUpdateHandler p g st).quill = some (quillTextDoc p.contents))) ∧
    (isMeaningfulSerializedContents p.contents = false →
       (externalNoteUpdateHandler p g st).quill = some (quillTextDoc [])) ∧
    ((externalNoteUpdateHandler p g st).noteColor =
       if p.color = [] then st.noteColor else p.color) ∧
    (∀ q : ℚ, p.zoom = JSNum.num q → q ≠ 0 →
       (externalNoteUpdateHandler p g st).zoomStyle = some q) ∧
    ((¬ ∃ q : ℚ, p.zoom = JSNum.num q ∧ q ≠ 0) →
       (externalNoteUpdateHandler p g st).zoomStyle = st.zoomStyle) := by
  unfold externalNoteUpdateHandler
  set st1 := if p.color ≠ [] then { st with noteColor := p.color } else st with hst1
  set st2 := if p.zoom.truthy && p.zoom.isFiniteNum
             then { st1 with zoomStyle := some p.zoom.toQ }
             else st1 with hst2
  have hq2 : st2.quill = some d := by
    rw [hst2, hst1]
    split <;> split <;> simpa using hq
  have hquill := apply_external_quill p.contents g st2 d hq2
  have hcol2 : st2.noteColor = st1.noteColor := by
    rw [hst2]
    split <;> rfl
  obtain ⟨hvc, hvz⟩ := apply_external_visual p.contents g st2 d hq2
  refine ⟨?_, ?_, ?_, ?_, ?_⟩
  · intro hme
    refine ⟨?_, ?_, ?_⟩
    · intro delta hpd htr
      rw [hquill, if_pos hme]
      unfold applyContentsDoc
      rw [hpd]
      simp only [htr, if_true]
    · intro hpd
      rw [hquill, if_pos hme]
      unfold applyContentsDoc
      rw [hpd]
    · intro delta hpd htr
      rw [hquill, if_pos hme]
      unfold applyContentsDoc
      rw [hpd]
      simp only [htr, Bool.false_eq_true, if_false]
  · intro hme
    rw [hquill, hme]
    simp
  · rw [hvc, hcol2, hst1]
    by_cases hc : p.color = []
    · simp [hc]
    · simp [hc]
  · intro q hzq hqne
    rw [hvz, hst2]
    rw [if_pos (by rw [hzq]; simp [JSNum.truthy, JSNum.isFiniteNum, hqne])]
    rw [hzq]
    rfl
  · intro hno
    rw [hvz, hst2]
    rw [if_neg (by
      intro hcond
      rcases hzc : p.zoom with q | _ | _ | _ <;> rw [hzc] at hcond <;>
        simp [JSNum.truthy, JSNum.isFiniteNum] at hcond
      exact hno ⟨q, hzc, hcond⟩)]
    rw [hst1]
    split <;> rfl

/-- Counterexample to C4 as stated: the supplied zoom `-2` is finite but
NOT positive, yet the listener sets the zoom factor to it — the code's
truthy-and-finite test does not require positivity. -/
theorem C4_external_update_dispatch_counterexample :
    (externalNoteUpdateHandler ⟨[], [], JSNum.num (-2)⟩ ⟨none, 0, 0⟩ witnessState).zoomStyle
      = some (-2) ∧ ¬(0 < (-2 : ℚ)) := by
  constructor
  · rfl
  · norm_num

/-- Witness for the amended C4: non-JSON contents `"x"` are meaningful raw
text and land as plain text, the provided color is applied, and the finite
nonzero zoom `2` is set. -/
theorem C4_external_update_dispatch_witness :
    (externalNoteUpdateHandler ⟨['x'], ['r'], JSNum.num 2⟩ ⟨none, 0, 0⟩ witnessState).quill
      = some (quillTextDoc ['x']) ∧
    (externalNoteUpdateHandler ⟨['x'], ['r'], JSNum.num 2⟩ ⟨none, 0, 0⟩ witnessState).noteColor
      = ['r'] ∧
    (externalNoteUpdateHandler ⟨['x'], ['r'], JSNum.num 2⟩ ⟨none, 0, 0⟩ witnessState).zoomStyle
      = some 2 := by
  have h := C4_external_update_dispatch ⟨['x'], ['r'], JSNum.num 2⟩ ⟨none, 0, 0⟩
    witnessState emptyQuillDoc rfl
  refine ⟨(h.1 (by decide)).2.1 (by rfl), ?_, h.2.2.2.1 2 rfl (by norm_num)⟩
  have hc := h.2.2.1
  simpa using hc

/-- C7 (amended): for every current zoom factor already in the clamped
range `[0.5, 2.0]` and every zoom-control event (`"in"`, `"out"`,
`"reset"`), the handler leaves the zoom in `[0.5, 2.0]` and follows the
adjustment with a forced flush carrying the new zoom.  The claim's
quantification over every POSITIVE current zoom is corrected: `"in"` only
clamps from above and `"out"` only from below, so a current zoom pushed
outside the range by an external update (e.g. `0.2`) steps to a value
still outside `[0.5, 2.0]`. -/
theorem C7_zoom_clamped_flush (st : NoteState) (payload : Str) (d : Json)
    (hq : st.quill = some d) (hid : st.noteId ≠ [])
    (hlo : 1 / 2 ≤ getZoomLevel st) (hhi : getZoomLevel st ≤ 2)
    (hp : payload = "in".data ∨ payload = "out".data ∨ payload = "reset".data) :
    ∃ z : ℚ, (zoomHandler payload st).zoomStyle = some z ∧ 1 / 2 ≤ z ∧ z ≤ 2 ∧
      (zoomHandler payload st).savedLog = st.savedLog ++
        [⟨st.noteId, serializeContentsOf d, getNoteColor st, z⟩] ∧
      (zoomHandler payload st).saveTimeout = none := by
  set current := st.zoomStyle.getD 1 with hcur
  have hcur2 : current = getZoomLevel st := rfl
  set next := if payload = "in".data then min (current + 1 / 10) 2
              else if payload = "out".data then max (current - 1 / 10) (1 / 2)
              else if payload = "reset".data then 1
              else current with hnext
  have hrange : 1 / 2 ≤ next ∧ next ≤ 2 := by
    rw [hnext, hcur2]
    rcases hp with hp | hp | hp <;> rw [hp]
    · simp only [if_pos rfl]
      constructor
      · have h1 : (1 : ℚ) / 2 ≤ getZoomLevel st + 1 / 10 := by linarith
        exact le_min h1 (by norm_num)
      · exact min_le_right _ _
    · rw [if_neg (by decide), if_pos rfl]
      constructor
      · exact le_max_right _ _
      · have h1 : getZoomLevel st - 1 / 10 ≤ 2 := by linarith
        exact max_le h1 (by norm_num)
    · rw [if_neg (by decide), if_neg (by decide), if_pos rfl]
      norm_num
  have hz := persistContents_some
    { st with zoomStyle := some next, saveTimeout := none } d hq hid
  have hzoomEq : zoomHandler payload st =
      { st with
        zoomStyle := some next
        saveTimeout := none
        savedLog := st.savedLog ++
          [⟨st.noteId, serializeContentsOf d, getNoteColor st, next⟩] } := by
    show persistContents { st with zoomStyle := some next, saveTimeout := none } = _
    rw [hz]
    rfl
  exact ⟨next, by rw [hzoomEq], hrange.1, hrange.2, by rw [hzoomEq], by rw [hzoomEq]⟩

/-- Counterexample to C7 as stated: from the positive current zoom `0.2`
(reachable via an external update, which accepts any finite nonzero zoom),
the `"in"` control steps to `0.3`, which lies outside `[0.5, 2.0]`. -/
theorem C7_zoom_clamped_flush_counterexample :
    0 < ((1 : ℚ) / 5) ∧
    (zoomHandler "in".data { witnessState with zoomStyle := some (1 / 5) }).zoomStyle
      = some (3 / 10) ∧
    ¬(1 / 2 ≤ (3 / 10 : ℚ)) := by
  refine ⟨by norm_num, ?_, by norm_num⟩
  have hmin : min ((1 : ℚ) / 5 + 1 / 10) 2 = 3 / 10 := by norm_num
  have hz := persistContents_some
    { witnessState with
      zoomStyle := some (min ((1 : ℚ) / 5 + 1 / 10) 2)
      saveTimeout := none } emptyQuillDoc rfl (by decide)
  have heq : zoomHandler "in".data { witnessState with zoomStyle := some (1 / 5) } =
      { witnessState with
        zoomStyle := some (min ((1 : ℚ) / 5 + 1 / 10) 2)
        saveTimeout := none
        savedLog := witnessState.savedLog ++
          [⟨['n'], serializeContentsOf emptyQuillDoc, ['c'], min ((1 : ℚ) / 5 + 1 / 10) 2⟩] } := by
    show persistContents
      { witnessState with
        zoomStyle := some (min ((1 : ℚ) / 5 + 1 / 10) 2)
        saveTimeout := none } = _
    rw [hz]
    rfl
  rw [heq]
  simp only []
  rw [hmin]

/-- Witness for the amended C7 at current zoom `1` and the `"in"` event. -/
theorem C7_zoom_clamped_flush_witness :
    ∃ z : ℚ, (zoomHandler "in".data witnessState).zoomStyle = some z ∧
      1 / 2 ≤ z ∧ z ≤ 2 ∧
      (zoomHandler "in".data witnessState).savedLog =
        [⟨['n'], serializeContentsOf emptyQuillDoc, ['c'], z⟩] ∧
      (zoomHandler "in".data witnessState).saveTimeout = none := by
  have h := C7_zoom_clamped_flush witnessState "in".data emptyQuillDoc rfl (by decide)
    (by norm_num [getZoomLevel, witnessState]) (by norm_num [getZoomLevel, witnessState])
    (Or.inl rfl)
  obtain ⟨z, h1, h2, h3, h4, h5⟩ := h
  exact ⟨z, h1, h2, h3, h4, h5⟩

/-- C8: for every content-change reflow, `growWindowToFitEditorContent`
computes the overflow as `ceil(scrollHeight − clientHeight)` and issues a
resize exactly when it exceeds the 2-pixel threshold; the issued size
keeps the width read at that moment unchanged and adds exactly the
measured overflow to the height read at that moment (no accumulation). -/
theorem C8_grow_window_exact (e : ElemBox) (winW winH : ℚ) :
    (overflowHeight e ≤ 2 → growWindowToFitEditorContent e winW winH = none) ∧
    (2 < overflowHeight e →
      growWindowToFitEditorContent e winW winH
        = some (winW, winH + (overflowHeight e : ℚ))) := by
  constructor
  · intro h
    unfold growWindowToFitEditorContent RESIZE_THRESHOLD_PX
    rw [if_pos h]
  · intro h
    unfold growWindowToFitEditorContent RESIZE_THRESHOLD_PX
    rw [if_neg (by omega)]

/-- Witness for C8: a 10.5-pixel overflow grows a 100×200 window to
100×211 (the ceiling of 10.5 is 11); a 2-pixel overflow issues no
resize. -/
theorem C8_grow_window_exact_witness :
    growWindowToFitEditorContent ⟨210.5, 200⟩ 100 200 = some (100, 211) ∧
    growWindowToFitEditorContent ⟨202, 200⟩ 100 200 = none := by
  have hceil : (⌈(21 / 2 : ℚ)⌉ : ℤ) = 11 := by
    rw [Int.ceil_eq_iff]
    constructor <;> norm_num

  have hov : overflowHeight ⟨210.5, 200⟩ = 11 := by
    unfold overflowHeight
    rw [show (210.5 : ℚ) - 200 = 21 / 2 by norm_num]
    exact hceil
  constructor
  · have h := (C8_grow_window_exact ⟨210.5, 200⟩ 100 200).2 (by rw [hov]; norm_num)
    rw [h, hov]
    norm_num
  · refine (C8_grow_window_exact ⟨202, 200⟩ 100 200).1 ?_
    unfold overflowHeight
    rw [show (202 : ℚ) - 200 = 2 by norm_num]
    norm_num

/-- C9: when the gateway call made by a forced flush rejects, the
rejection propagates out of `save_contents(true)`; in the close-note flow
the rejection aborts `closeNote` before `invoke("close_window")`, so the
window-close command is never issued and the invocation log still records
the attempted save. -/
theorem C9_close_rejection_blocks (st : NoteState) (e : Str) (d : Json)
    (hq : st.quill = some d) (hid : st.noteId ≠ []) :
    (save_contentsRun (some e) true st).2 = some e ∧
    (closeNote (some e) st).2 = some e ∧
    (closeNote (some e) st).1.cmdLog = st.cmdLog ∧
    (closeNote (some e) st).1.savedLog = st.savedLog ++
      [⟨st.noteId, serializeContentsOf d, getNoteColor st, getZoomLevel st⟩] := by
  have hrun : save_contentsRun (some e) true st =
      ({ st with
          saveTimeout := none
          savedLog := st.savedLog ++
            [⟨st.noteId, serializeContentsOf d, getNoteColor st, getZoomLevel st⟩] },
        some e) := by
    show persistContentsRun (some e) { st with saveTimeout := none } = _
    unfold persistContentsRun
    split
    · rename_i heq
      rw [show ({ st with saveTimeout := none } : NoteState).quill = st.quill from rfl] at heq
      rw [heq] at hq
      exact absurd hq (by simp)
    · rename_i d2 heq
      rw [show ({ st with saveTimeout := none } : NoteState).quill = st.quill from rfl] at heq
      rw [heq] at hq
      obtain rfl : d2 = d := by injection hq
      rw [if_neg hid]
      rfl
  have hclose : closeNote (some e) st =
      ({ st with
          saveTimeout := none
          savedLog := st.savedLog ++
            [⟨st.noteId, serializeContentsOf d, getNoteColor st, getZoomLevel st⟩] },
        some e) := by
    unfold closeNote
    rw [hrun]
  rw [hrun, hclose]
  exact ⟨rfl, rfl, rfl, rfl⟩

/-- Witness for C9 at a concrete state and gateway error. -/
theorem C9_close_rejection_blocks_witness :
    (save_contentsRun (some ['e']) true witnessState).2 = some ['e'] ∧
    (closeNote (some ['e']) witnessState).2 = some ['e'] ∧
    (closeNote (some ['e']) witnessState).1.cmdLog = [] := by
  have h := C9_close_rejection_blocks witnessState ['e'] emptyQuillDoc rfl (by decide)
  exact ⟨h.1, h.2.1, h.2.2.1⟩

theorem save_contents_unbound (force : Bool) (st : NoteState) (h : st.noteId = []) :
    (save_contents force st).noteId = [] ∧ (save_contents force st).savedLog = st.savedLog := by
  cases force with
  | true =>
    show (persistContents { st with saveTimeout := none }).noteId = [] ∧
      (persistContents { st with saveTimeout := none }).savedLog = st.savedLog
    rw [persistContents_unbound ({ st with saveTimeout := none }) h]
    exact ⟨h, rfl⟩
  | false => exact ⟨h, rfl⟩

theorem tick_unbound (δ : ℕ) (st : NoteState) (h : st.noteId = []) :
    (tick δ st).noteId = [] ∧ (tick δ st).savedLog = st.savedLog := by
  cases hst : st.saveTimeout with
  | none =>
    rw [tick_idle δ st hst]
    exact ⟨h, rfl⟩
  | some dl =>
    by_cases hle : dl ≤ st.now + δ
    · have hfire : tick δ st =
          persistContents { st with now := st.now + δ, saveTimeout := none } := by
        unfold tick
        rw [hst]
        simp only [if_pos hle]
      rw [hfire,
        persistContents_unbound ({ st with now := st.now + δ, saveTimeout := none }) h]
      exact ⟨h, rfl⟩
    · have hnof : tick δ st = { st with now := st.now + δ } := by
        unfold tick
        rw [hst]
        simp only [if_neg hle]
      rw [hnof]
      exact ⟨h, rfl⟩

theorem textChangeHandler_log (source : Str) (g : GeomOracle) (st : NoteState) :
    (textChangeHandler source g st).noteId = st.noteId ∧
    (textChangeHandler source g st).savedLog = st.savedLog := by
  unfold textChangeHandler
  split
  · rw [geomReact_spec]
    exact ⟨rfl, rfl⟩
  · rw [geomReact_spec]
    exact ⟨rfl, rfl⟩

theorem apply_external_log (contents : Str) (g : GeomOracle) (st : NoteState) :
    (apply_external_contents contents g st).noteId = st.noteId ∧
    (apply_external_contents contents g st).savedLog = st.savedLog := by
  unfold apply_external_contents
  split
  · exact ⟨rfl, rfl⟩
  · have h := textChangeHandler_log "api".data ⟨g.editorEl, g.winWidth, g.winHeight⟩
    constructor
    · exact (textChangeHandler_log _ g _).1
    · exact (textChangeHandler_log _ g _).2

theorem persistContentsRun_unbound (gwErr : Option Str) (st : NoteState)
    (h : st.noteId = []) : persistContentsRun gwErr st = (st, none) := by
  unfold persistContentsRun
  split
  · rfl
  · rw [if_pos h]

theorem closeNote_unbound (st : NoteState) (h : st.noteId = []) :
    ((closeNote none st).1).noteId = [] ∧ ((closeNote none st).1).savedLog = st.savedLog := by
  have h1 : save_contentsRun none true st = ({ st with saveTimeout := none }, none) := by
    show persistContentsRun none { st with saveTimeout := none } = _
    exact persistContentsRun_unbound none _ h
  unfold closeNote
  rw [h1]
  exact ⟨h, rfl⟩

theorem stepEv_unbound (ev : NoteEv) (st : NoteState) (h : st.noteId = []) :
    (stepEv ev st).noteId = [] ∧ (stepEv ev st).savedLog = st.savedLog := by
  cases ev with
  | tickEv δ => exact tick_unbound δ st h
  | localEditEv d g =>
    show (localEdit d g st).noteId = [] ∧ (localEdit d g st).savedLog = st.savedLog
    unfold localEdit
    split
    · exact ⟨h, rfl⟩
    · have hl := textChangeHandler_log "user".data g { st with quill := some d }
      exact ⟨hl.1.trans h, hl.2⟩
  | reqSaveEv force => exact save_contents_unbound force st h
  | zoomEv p =>
    show (zoomHandler p st).noteId = [] ∧ (zoomHandler p st).savedLog = st.savedLog
    have hs := save_contents_unbound true
      { st with zoomStyle := some (if p = "in".data
          then min (st.zoomStyle.getD 1 + 1 / 10) 2
          else if p = "out".data then max (st.zoomStyle.getD 1 - 1 / 10) (1 / 2)
          else if p = "reset".data then 1 else st.zoomStyle.getD 1) } h
    exact ⟨hs.1, hs.2⟩
  | colorClickEv c =>
    show (handleColorClick c st).noteId = [] ∧
      (handleColorClick c st).savedLog = st.savedLog
    have hs := save_contents_unbound true { st with noteColor := c } h
    exact ⟨hs.1, hs.2⟩
  | setColorEv c => exact ⟨h, rfl⟩
  | externalUpdateEv p g =>
    show (externalNoteUpdateHandler p g st).noteId = [] ∧
      (externalNoteUpdateHandler p g st).savedLog = st.savedLog
    unfold externalNoteUpdateHandler
    constructor
    · refine ((apply_external_log p.contents g _).1).trans ?_
      split <;> split <;> exact h
    · refine ((apply_external_log p.contents g _).2).trans ?_
      split <;> split <;> rfl
  | closeReqEv => exact closeNote_unbound st h

/-- C10: a note window started without an initialization payload keeps the
empty note id through every possible sequence of triggers — debounced
saves, forced flushes, blur, zoom, color changes, external updates,
shutdown signals and close requests — and its persistence-gateway log
stays empty forever: `persistContents` refuses to invoke `save_contents`
without a bound note id, and nothing but the startup payload ever assigns
the id. -/
theorem C10_unbound_window_never_persists (dc : Str) (evs : List NoteEv) :
    (runEvents evs (initialNoteState none dc)).noteId = [] ∧
    (runEvents evs (initialNoteState none dc)).savedLog = [] := by
  suffices h : ∀ st : NoteState, st.noteId = [] → st.savedLog = [] →
      (runEvents evs st).noteId = [] ∧ (runEvents evs st).savedLog = [] by
    exact h _ rfl rfl
  induction evs with
  | nil =>
    intro st h1 h2
    exact ⟨h1, h2⟩
  | cons ev evs ih =>
    intro st h1 h2
    have hstep := stepEv_unbound ev st h1
    exact ih _ hstep.1 (hstep.2.trans h2)
